import Mathlib

/-!
Verification of the factorial-family micro-benchmark.

The program generates ten entry points `factorial_1 .. factorial_10`, all
wrapping one generic function `factorial::<N>(n)` that computes a saturating
multiplicative reduction over `u64`, and a timing harness `measure` that
reports the minimum per-call latency over a fixed number of timed batches.

We embed the computational content shallowly: `u64` values are natural
numbers below `2^64`, saturating multiplication caps at `u64::MAX`, the
`while` loop becomes structural recursion on the loop variable, and the
clock readings consumed by the harness become an oracle function from batch
index to elapsed nanoseconds.
-/

namespace SCDP

/-- The value `u64::MAX = 2^64 - 1`. -/
def U64MAX : Nat := 2 ^ 64 - 1

/-- Saturating u64 multiplication `u64::saturating_mul`: the product, capped
at `u64::MAX`.  For operands in `u64` range the result is again in range. -/
def satMul (a b : Nat) : Nat := Nat.min (a * b) U64MAX

/-- The body of `factorial`'s loop, from `src/main.rs`:

    let mut m = 1u64;
    while n > 1 {
        m = m.saturating_mul(n);
        n -= 1;
        unsafe { __asm_nops(); }
    }
    m

The guard `n > 1` fails exactly on `n = 0` and `n = 1`, so the loop is the
structural recursion below; `__asm_nops()` has no effect on the values (its
trace is modelled separately for the determinism claim). -/
def factorialLoop : Nat → Nat → Nat
  | 0, m => m
  | 1, m => m
  | n + 2, m => factorialLoop (n + 1) (satMul m (n + 2))

/-- The generic function `fn factorial<const N: u64>(mut n: u64) -> u64`.
The body performs a
volatile read of the tag `N` (anti-deduplication barrier) whose result is
discarded, then runs the loop with accumulator `m = 1`. -/
def factorial (N : Nat) (n : Nat) : Nat :=
  -- `unsafe { std::ptr::read_volatile(&N) };` : value discarded
  let _tag := N
  factorialLoop n 1

/-- Family member 1: `fn factorial_1(n: u64) -> u64 { factorial::<1>(n) }`
(from the `factorial!` macro expansion). -/
def factorial_1 (n : Nat) : Nat := factorial 1 n

/-- Family member 2: `fn factorial_2(n: u64) -> u64 { factorial::<2>(n) }`. -/
def factorial_2 (n : Nat) : Nat := factorial 2 n

/-- Family member 3: `fn factorial_3(n: u64) -> u64 { factorial::<3>(n) }`. -/
def factorial_3 (n : Nat) : Nat := factorial 3 n

/-- Family member 4: `fn factorial_4(n: u64) -> u64 { factorial::<4>(n) }`. -/
def factorial_4 (n : Nat) : Nat := factorial 4 n

/-- Family member 5: `fn factorial_5(n: u64) -> u64 { factorial::<5>(n) }`. -/
def factorial_5 (n : Nat) : Nat := factorial 5 n

/-- Family member 6: `fn factorial_6(n: u64) -> u64 { factorial::<6>(n) }`. -/
def factorial_6 (n : Nat) : Nat := factorial 6 n

/-- Family member 7: `fn factorial_7(n: u64) -> u64 { factorial::<7>(n) }`. -/
def factorial_7 (n : Nat) : Nat := factorial 7 n

/-- Family member 8: `fn factorial_8(n: u64) -> u64 { factorial::<8>(n) }`. -/
def factorial_8 (n : Nat) : Nat := factorial 8 n

/-- Family member 9: `fn factorial_9(n: u64) -> u64 { factorial::<9>(n) }`. -/
def factorial_9 (n : Nat) : Nat := factorial 9 n

/-- Family member 10: `fn factorial_10(n: u64) -> u64 { factorial::<10>(n) }`. -/
def factorial_10 (n : Nat) : Nat := factorial 10 n

/-- The function-pointer table built in `main`:
`[(1, factorial_1), ..., (10, factorial_10)]`. -/
def functions : List (Nat × (Nat → Nat)) :=
  [(1, factorial_1), (2, factorial_2), (3, factorial_3), (4, factorial_4),
   (5, factorial_5), (6, factorial_6), (7, factorial_7), (8, factorial_8),
   (9, factorial_9), (10, factorial_10)]

/-- The descending list `[n, n-1, ..., 2]` of multipliers consumed by the
reduction loop (empty for `n ≤ 1`). -/
def descRange : Nat → List Nat
  | 0 => []
  | 1 => []
  | n + 2 => (n + 2) :: descRange (n + 1)

/-- Reference reduction, written from the spec's description of the family
members: "a saturating multiplicative reduction from n down to 1", i.e. the
fold starting at `m = 1` applying `u64` saturating multiplication by
`n, n-1, ..., 2` (yielding `1` when `n ≤ 1`). -/
def satReduction (n : Nat) : Nat := (descRange n).foldl satMul 1

/-- The exact (non-saturating) factorial-like product `n * (n-1) * ... * 2`,
with empty product `1` for `n ≤ 1`. -/
def exactProduct (n : Nat) : Nat := (descRange n).foldl (· * ·) 1

/-! Timing harness `measure`. -/

/-- Sample count constant: `const SAMPLES: usize = 10000;`. -/
def SAMPLES : Nat := 10000

/-- Batch size constant: `const SAMPLE_SIZE: usize = 100;`. -/
def SAMPLE_SIZE : Nat := 100

/-- The measurement loop of `measure`, with the sample count as an explicit
argument (the source fixes it to the constant `SAMPLES`; the parameter lets
us also state what the loop does when it runs zero times):

    let mut min = u64::max_value();
    for _ in 0..SAMPLES {
        let time = Instant::now();
        for _ in 0..SAMPLE_SIZE { black_box(f(black_box(100))); }
        let time = time.elapsed().as_nanos() as u64 / SAMPLE_SIZE as u64;
        min = min.min(time);
    }
    min

`elapsed i` is the clock oracle: the nanoseconds the monotonic clock reports
for the `i`-th timed batch.  Physical time is outside the program, so it
enters the embedding as this oracle. -/
def measureLoop (elapsed : Nat → Nat) (samples : Nat) : Nat :=
  (List.range samples).foldl (fun mn i => Nat.min mn (elapsed i / SAMPLE_SIZE)) U64MAX

/-- The harness `fn measure(f: fn(u64) -> u64) -> u64`: warm-up calls `f(100)`
`SAMPLES / 10` times discarding the results, then runs the measurement loop
for `SAMPLES` batches and returns the accumulated minimum. -/
def measure (f : Nat → Nat) (elapsed : Nat → Nat) : Nat :=
  -- warm-up phase: results are black_box-discarded, only the minimum fold
  -- below determines the return value
  let _warmup := (List.range (SAMPLES / 10)).map fun _ => f 100
  measureLoop elapsed SAMPLES

/-- The min/max accumulation in `main`:

    let mut min = u64::max_value();
    let mut max = u64::min_value();
    for (i, f) in functions.into_iter() {
        let value = measure(f);
        min = min.min(value);
        max = max.max(value);
    }

folded over the list of measured per-member minima. -/
def minMaxFold (values : List Nat) : Nat × Nat :=
  values.foldl (fun acc v => (Nat.min acc.1 v, Nat.max acc.2 v)) (U64MAX, 0)

/-- The headline statistic printed by `main`: `max - min` (u64, hence
truncated subtraction in the embedding). -/
def spread (values : List Nat) : Nat := (minMaxFold values).2 - (minMaxFold values).1

/-! Instrumented variants of the reduction loop, used to settle the
termination, trap-freedom and determinism claims. -/

/-- Fuel-indexed version of the reduction loop: `none` when the loop would
need more than `fuel` iterations, `some` of the loop's result otherwise.
Each recursive call consumes one unit of fuel, so `factorialLoopFuel fuel n m
= some r` says the `while` loop reaches `r` within `fuel` iterations. -/
def factorialLoopFuel : Nat → Nat → Nat → Option Nat
  | _, 0, m => some m
  | _, 1, m => some m
  | 0, _ + 2, _ => none
  | fuel + 1, n + 2, m => factorialLoopFuel fuel (n + 1) (satMul m (n + 2))

/-- Checked version of the loop body: every arithmetic operation of the
source is guarded by the condition under which `u64` arithmetic does not
trap.  `m.saturating_mul(n)` is total by construction (saturating), so it
needs no guard; `n -= 1` underflows exactly when `n < 1`, so it is guarded
by `1 ≤ n` — in the body this is evaluated with `n` matching `k + 2`,
because the loop guard `n > 1` admitted it. -/
def factorialLoopChecked : Nat → Nat → Option Nat
  | 0, m => some m
  | 1, m => some m
  | n + 2, m =>
    -- `m = m.saturating_mul(n)`: never traps, always in u64 range
    -- `n -= 1`: traps iff the subtraction would underflow, i.e. iff n < 1
    if 1 ≤ n + 2 then factorialLoopChecked (n + 2 - 1) (satMul m (n + 2)) else none

/-- Observable events of one call, for the determinism claim: the volatile
read of the compile-time tag, and executed no-op padding instructions.
The padding count is modelled from the spec: `__asm_nops()` is generated
outside this crate as a fixed sequence of `NOP_COUNT` no-op instructions
with no data dependency and no semantic effect. -/
inductive Event where
  | readTag (tag : Nat)
  | nop
deriving DecidableEq, Repr

/-- Reduction loop instrumented with its event trace: each iteration
executes the `nopCount` padding no-ops after the arithmetic. -/
def factorialLoopTr (nopCount : Nat) : Nat → Nat → Nat × List Event
  | 0, m => (m, [])
  | 1, m => (m, [])
  | n + 2, m =>
    let r := factorialLoopTr nopCount (n + 1) (satMul m (n + 2))
    (r.1, List.replicate nopCount Event.nop ++ r.2)

/-- The generic `factorial::<N>` instrumented with its event trace: the
volatile read of the tag `N` happens first, then the loop with its
padding no-ops. -/
def factorialTr (N nopCount n : Nat) : Nat × List Event :=
  let r := factorialLoopTr nopCount n 1
  (r.1, Event.readTag N :: r.2)

/-! Helper lemmas. -/

/-- The loop equals the left fold of saturating multiplication over the
descending multiplier list. -/
theorem factorialLoop_eq_foldl : ∀ (n m : Nat),
    factorialLoop n m = (descRange n).foldl satMul m
  | 0, _ => rfl
  | 1, _ => rfl
  | n + 2, m => by
    show factorialLoop (n + 1) (satMul m (n + 2)) = (descRange (n + 1)).foldl satMul (satMul m (n + 2))
    exact factorialLoop_eq_foldl (n + 1) (satMul m (n + 2))

/-- The value component of the event-traced loop agrees with the plain loop. -/
theorem factorialLoopTr_fst : ∀ (c n m : Nat),
    (factorialLoopTr c n m).1 = factorialLoop n m
  | _, 0, _ => rfl
  | _, 1, _ => rfl
  | c, n + 2, m => factorialLoopTr_fst c (n + 1) (satMul m (n + 2))

/-- Saturating multiplication stays within u64 range. -/
theorem satMul_le (a b : Nat) : satMul a b ≤ U64MAX :=
  Nat.min_le_right _ _

/-- The loop keeps the accumulator within u64 range. -/
theorem factorialLoop_le : ∀ (n m : Nat), m ≤ U64MAX → factorialLoop n m ≤ U64MAX
  | 0, _, h => h
  | 1, _, h => h
  | n + 2, m, _ => factorialLoop_le (n + 1) (satMul m (n + 2)) (satMul_le _ _)

/-- The checked loop never returns `none` and agrees with the plain loop. -/
theorem factorialLoopChecked_eq : ∀ (n m : Nat),
    factorialLoopChecked n m = some (factorialLoop n m)
  | 0, _ => rfl
  | 1, _ => rfl
  | n + 2, m => by
    rw [factorialLoopChecked, if_pos (by omega)]
    exact factorialLoopChecked_eq (n + 1) (satMul m (n + 2))

/-- With fuel `n`, the loop started at `n + 1` completes and returns the
loop's value (the loop runs exactly `n` iterations there). -/
theorem factorialLoopFuel_enough : ∀ (n m : Nat),
    factorialLoopFuel n (n + 1) m = some (factorialLoop (n + 1) m)
  | 0, _ => rfl
  | n + 1, m => factorialLoopFuel_enough n (satMul m (n + 2))

/-- With fuel `k`, the loop started at `k + 2` runs out of fuel: fewer than
`n - 1` iterations never finish the loop. -/
theorem factorialLoopFuel_short : ∀ (k m : Nat),
    factorialLoopFuel k (k + 2) m = none
  | 0, _ => rfl
  | k + 1, m => factorialLoopFuel_short k (satMul m (k + 3))

/-- A left fold of `Nat.min` is bounded by its initial accumulator. -/
theorem foldl_min_le_init : ∀ (l : List Nat) (init : Nat),
    l.foldl Nat.min init ≤ init
  | [], _ => Nat.le_refl _
  | a :: l, init =>
    Nat.le_trans (foldl_min_le_init l (Nat.min init a)) (Nat.min_le_left _ _)

/-- A left fold of `Nat.min` is bounded by every list element. -/
theorem foldl_min_le_mem : ∀ (l : List Nat) (init x : Nat), x ∈ l →
    l.foldl Nat.min init ≤ x
  | [], _, x, h => absurd h (List.not_mem_nil x)
  | a :: l, init, x, h => by
    rcases List.mem_cons.mp h with rfl | hx
    · exact Nat.le_trans (foldl_min_le_init l (Nat.min init x)) (Nat.min_le_right _ _)
    · exact foldl_min_le_mem l (Nat.min init a) x hx

/-- A left fold of `Nat.min` is the initial accumulator or a list element. -/
theorem foldl_min_attained : ∀ (l : List Nat) (init : Nat),
    l.foldl Nat.min init = init ∨ l.foldl Nat.min init ∈ l
  | [], _ => Or.inl rfl
  | a :: l, init => by
    show (l.foldl Nat.min (Nat.min init a) = init) ∨ _ ∈ a :: l
    rcases foldl_min_attained l (Nat.min init a) with h | h
    · rw [List.foldl_cons, h]
      rcases Nat.le_total init a with hle | hle
      · exact Or.inl (min_eq_left hle)
      · have ha : Nat.min init a = a := min_eq_right hle
        rw [ha]
        exact Or.inr (List.mem_cons_self a l)
    · exact Or.inr (List.mem_cons_of_mem a h)

/-- The measurement loop as a fold of `Nat.min` over the per-batch
latencies. -/
theorem measureLoop_eq_foldl (elapsed : Nat → Nat) (s : Nat) :
    measureLoop elapsed s =
      ((List.range s).map fun i => elapsed i / SAMPLE_SIZE).foldl Nat.min U64MAX := by
  rw [List.foldl_map]
  rfl

/-- The harness result is bounded by every batch's per-call latency. -/
theorem measure_le_batch (f elapsed : Nat → Nat) (i : Nat) (hi : i < SAMPLES) :
    measure f elapsed ≤ elapsed i / SAMPLE_SIZE := by
  show measureLoop elapsed SAMPLES ≤ elapsed i / SAMPLE_SIZE
  rw [measureLoop_eq_foldl]
  exact foldl_min_le_mem _ _ _ (List.mem_map_of_mem _ (List.mem_range.mpr hi))

/-- For u64 clock readings, a per-call latency is strictly below the
sentinel `u64::MAX` (the batch time is divided by `SAMPLE_SIZE = 100`). -/
theorem batch_latency_lt_sentinel (e : Nat) (he : e < 2 ^ 64) :
    e / SAMPLE_SIZE < U64MAX := by
  have h1 : e / SAMPLE_SIZE ≤ (2 ^ 64 - 1) / SAMPLE_SIZE :=
    Nat.div_le_div_right (by omega)
  have h2 : (2 ^ 64 - 1) / SAMPLE_SIZE < U64MAX := by decide
  omega

/-- The harness result is strictly below the sentinel for u64 clock
readings. -/
theorem measure_lt_sentinel (f elapsed : Nat → Nat)
    (h : ∀ i, i < SAMPLES → elapsed i < 2 ^ 64) :
    measure f elapsed < U64MAX :=
  Nat.lt_of_le_of_lt (measure_le_batch f elapsed 0 (by decide))
    (batch_latency_lt_sentinel _ (h 0 (by decide)))

/-- A min/max pair fold preserves `fst ≤ snd`. -/
theorem minMax_foldl_le : ∀ (l : List Nat) (acc : Nat × Nat), acc.1 ≤ acc.2 →
    (l.foldl (fun a v => (Nat.min a.1 v, Nat.max a.2 v)) acc).1 ≤
      (l.foldl (fun a v => (Nat.min a.1 v, Nat.max a.2 v)) acc).2
  | [], _, h => h
  | _ :: l, _, h =>
    minMax_foldl_le l _
      (Nat.le_trans (Nat.min_le_left _ _) (Nat.le_trans h (Nat.le_max_left _ _)))

set_option maxRecDepth 20000 in
/-- On inputs up to 20 the loop computes the exact non-saturated product,
and that product fits in u64. -/
theorem factorialLoop_exact_small :
    ∀ n, n ≤ 20 → factorialLoop n 1 = exactProduct n ∧ exactProduct n ≤ U64MAX := by
  decide

set_option maxRecDepth 20000 in
/-- At input 100 the loop saturates to `u64::MAX`. -/
theorem factorialLoop_100 : factorialLoop 100 1 = U64MAX := by decide

/-! Claim theorems. -/

/-- C1: for every pair of family members in the function-pointer table and
every input n, the two entry points compute the same value on n:
alignment/padding never changes the computed value. -/
theorem family_members_agree (p q : Nat × (Nat → Nat))
    (hp : p ∈ functions) (hq : q ∈ functions) (n : Nat) : p.2 n = q.2 n := by
  have hval : ∀ r, r ∈ functions → r.2 n = factorialLoop n 1 := by
    intro r hr
    simp only [functions, List.mem_cons, List.not_mem_nil, or_false] at hr
    rcases hr with rfl | rfl | rfl | rfl | rfl | rfl | rfl | rfl | rfl | rfl <;> rfl
  rw [hval p hp, hval q hq]

/-- Witness for C1: members 1 and 10 agree at input 5. -/
theorem family_members_agree_witness :
    (1, factorial_1) ∈ functions ∧ (10, factorial_10) ∈ functions ∧
      factorial_1 5 = factorial_10 5 :=
  ⟨by simp [functions], by simp [functions],
    family_members_agree (1, factorial_1) (10, factorial_10)
      (by simp [functions]) (by simp [functions]) 5⟩

/-- C2: `factorial::<N>(n)` is the saturating multiplicative reduction from
n down to 1 — the fold starting at m = 1 applying u64 saturating
multiplication by n, n-1, ..., 2, returning 1 when n ≤ 1 — and the value
does not depend on the tag N. -/
theorem factorial_eq_satReduction (N M n : Nat) :
    factorial N n = satReduction n ∧ (n ≤ 1 → factorial N n = 1) ∧
      factorial N n = factorial M n := by
  refine ⟨factorialLoop_eq_foldl n 1, ?_, rfl⟩
  intro hn
  rcases n with _ | _ | n
  · rfl
  · rfl
  · exact absurd hn (by omega)

/-- Witness for C2 at tags 3, 7 and input 1. -/
theorem factorial_eq_satReduction_witness :
    factorial 3 1 = satReduction 1 ∧ factorial 3 1 = 1 ∧ factorial 3 1 = factorial 7 1 :=
  have h := factorial_eq_satReduction 3 7 1
  ⟨h.1, h.2.1 (by decide), h.2.2⟩

/-- C3: every family member returns `u64::MAX` at n = 100 (in particular
all ten return the identical value there), and for every n ≤ 20 it returns
the exact, non-saturated factorial-like product of n down to 2. -/
theorem family_saturation_and_exact (p : Nat × (Nat → Nat)) (hp : p ∈ functions) :
    p.2 100 = U64MAX ∧
      ∀ n, n ≤ 20 → p.2 n = exactProduct n ∧ exactProduct n ≤ U64MAX := by
  have hval : ∀ n, p.2 n = factorialLoop n 1 := by
    simp only [functions, List.mem_cons, List.not_mem_nil, or_false] at hp
    rcases hp with rfl | rfl | rfl | rfl | rfl | rfl | rfl | rfl | rfl | rfl <;>
      intro n <;> rfl
  refine ⟨?_, fun n hn => ?_⟩
  · rw [hval]
    exact factorialLoop_100
  · rw [hval]
    exact factorialLoop_exact_small n hn

/-- Witness for C3: member 2 at inputs 100 and 20. -/
theorem family_saturation_and_exact_witness :
    factorial_2 100 = U64MAX ∧ factorial_2 20 = exactProduct 20 ∧
      exactProduct 20 ≤ U64MAX :=
  have h := family_saturation_and_exact (2, factorial_2) (by simp [functions])
  ⟨h.1, (h.2 20 (by decide)).1, (h.2 20 (by decide)).2⟩

/-- C4: evaluating a family member never traps: the checked semantics —
saturating multiplication is total, the decrement is guarded against
underflow exactly as the loop guard admits it — returns `some` of the plain
loop's value on every input; saturating multiplication never leaves u64
range; and the loop keeps the accumulator in u64 range. -/
theorem factorial_never_traps (n m : Nat) :
    factorialLoopChecked n m = some (factorialLoop n m) ∧
      (∀ a b : Nat, satMul a b ≤ U64MAX) ∧
      (m ≤ U64MAX → factorialLoop n m ≤ U64MAX) :=
  ⟨factorialLoopChecked_eq n m, satMul_le, factorialLoop_le n m⟩

/-- Witness for C4 at n = 100, m = 1. -/
theorem factorial_never_traps_witness :
    factorialLoopChecked 100 1 = some (factorialLoop 100 1) ∧
      satMul 5 7 ≤ U64MAX ∧ factorialLoop 100 1 ≤ U64MAX :=
  have h := factorial_never_traps 100 1
  ⟨h.1, h.2.1 5 7, h.2.2 (by decide)⟩

/-- C5: for every measured function and every sequence of u64 batch elapsed
times, `measure` returns exactly the minimum over all SAMPLES = 10000
batches of the truncating per-call latency elapsed / SAMPLE_SIZE with
SAMPLE_SIZE = 100: it is ≤ every batch's per-call latency and equal to one
of them. -/
theorem measure_returns_min (f elapsed : Nat → Nat)
    (h : ∀ i, i < SAMPLES → elapsed i < 2 ^ 64) :
    SAMPLES = 10000 ∧ SAMPLE_SIZE = 100 ∧
      (∀ i, i < SAMPLES → measure f elapsed ≤ elapsed i / SAMPLE_SIZE) ∧
      (∃ i, i < SAMPLES ∧ measure f elapsed = elapsed i / SAMPLE_SIZE) := by
  refine ⟨rfl, rfl, fun i hi => measure_le_batch f elapsed i hi, ?_⟩
  have hm : measure f elapsed =
      ((List.range SAMPLES).map fun i => elapsed i / SAMPLE_SIZE).foldl Nat.min U64MAX :=
    measureLoop_eq_foldl elapsed SAMPLES
  rcases foldl_min_attained
      ((List.range SAMPLES).map fun i => elapsed i / SAMPLE_SIZE) U64MAX with hinit | hmem
  · exfalso
    have hlt := measure_lt_sentinel f elapsed h
    rw [hm, hinit] at hlt
    exact Nat.lt_irrefl _ hlt
  · rw [hm]
    rcases List.mem_map.mp hmem with ⟨i, hi, hEq⟩
    exact ⟨i, List.mem_range.mp hi, hEq.symm⟩

/-- Witness for C5: constant 50 ns batches, member 1, batch 0. -/
theorem measure_returns_min_witness :
    measure factorial_1 (fun _ => 50) ≤ 50 / SAMPLE_SIZE :=
  (measure_returns_min factorial_1 (fun _ => 50)
    (fun _ _ => show (50 : Nat) < 2 ^ 64 by decide)).2.2.1 0 (by decide)

/-- C6 counterexample: the measurement loop has no zero-configuration
check — run with zero samples it returns the unoverwritten sentinel
`u64::MAX` instead of failing fast with a configuration error. -/
theorem measure_zero_samples_sentinel : measureLoop (fun _ => 0) 0 = U64MAX := rfl

/-- C6 amended: SAMPLES = 10000 and SAMPLE_SIZE = 100 are fixed nonzero
constants, so the degenerate configuration cannot arise and the harness
result is never the sentinel; but the harness performs no fail-fast check —
a zero-sample measurement loop returns the sentinel u64::MAX. -/
theorem measure_no_failfast :
    SAMPLES ≠ 0 ∧ SAMPLE_SIZE ≠ 0 ∧
      (∀ elapsed : Nat → Nat, measureLoop elapsed 0 = U64MAX) ∧
      (∀ f elapsed : Nat → Nat, (∀ i, i < SAMPLES → elapsed i < 2 ^ 64) →
        measure f elapsed ≠ U64MAX) := by
  refine ⟨by decide, by decide, fun _ => rfl, fun f elapsed h => ?_⟩
  exact Nat.ne_of_lt (measure_lt_sentinel f elapsed h)

/-- Witness for C6 amended: constant 7 ns batches. -/
theorem measure_no_failfast_witness :
    measureLoop (fun _ => 7) 0 = U64MAX ∧ measure factorial_1 (fun _ => 7) ≠ U64MAX :=
  have h := measure_no_failfast
  ⟨h.2.2.1 (fun _ => 7),
    h.2.2.2 factorial_1 (fun _ => 7) (fun _ _ => show (7 : Nat) < 2 ^ 64 by decide)⟩

/-- C7 counterexample: with every batch observed at 0 elapsed nanoseconds
(a coarse clock and a fast call), the harness returns 0, refuting strict
positivity of the reported minimum. -/
theorem measure_zero_latency : measure factorial_1 (fun _ => 0) = 0 :=
  Nat.le_zero.mp (measure_le_batch factorial_1 (fun _ => 0) 0 (by decide))

/-- C7 amended: for u64 clock readings the harness minimum is ≥ 0 and
finite — strictly below u64::MAX — but not in general strictly positive
(a batch may be observed at fewer than SAMPLE_SIZE nanoseconds). -/
theorem measure_nonneg_finite (f elapsed : Nat → Nat)
    (h : ∀ i, i < SAMPLES → elapsed i < 2 ^ 64) :
    0 ≤ measure f elapsed ∧ measure f elapsed < U64MAX :=
  ⟨Nat.zero_le _, measure_lt_sentinel f elapsed h⟩

/-- Witness for C7 amended: constant 3 ns batches. -/
theorem measure_nonneg_finite_witness :
    0 ≤ measure factorial_1 (fun _ => 3) ∧ measure factorial_1 (fun _ => 3) < U64MAX :=
  measure_nonneg_finite factorial_1 (fun _ => 3)
    (fun _ _ => show (3 : Nat) < 2 ^ 64 by decide)

/-- C8: after folding the ten measured per-member minima, the running
maximum is ≥ the running minimum, so the summary's u64 subtraction
max - min cannot wrap and the reported spread is its truncated difference. -/
theorem spread_no_wrap (values : List Nat) (h : values.length = 10) :
    (minMaxFold values).1 ≤ (minMaxFold values).2 ∧
      spread values = (minMaxFold values).2 - (minMaxFold values).1 := by
  refine ⟨?_, rfl⟩
  rcases values with _ | ⟨v, l⟩
  · exact absurd h (by decide)
  · exact minMax_foldl_le l (Nat.min U64MAX v, Nat.max 0 v)
      (Nat.le_trans (Nat.min_le_right _ _) (Nat.le_max_right _ _))

/-- Witness for C8 on ten concrete measured values. -/
theorem spread_no_wrap_witness :
    (minMaxFold [5, 4, 9, 2, 8, 7, 1, 6, 3, 10]).1 ≤
        (minMaxFold [5, 4, 9, 2, 8, 7, 1, 6, 3, 10]).2 ∧
      spread [5, 4, 9, 2, 8, 7, 1, 6, 3, 10] =
        (minMaxFold [5, 4, 9, 2, 8, 7, 1, 6, 3, 10]).2 -
          (minMaxFold [5, 4, 9, 2, 8, 7, 1, 6, 3, 10]).1 :=
  spread_no_wrap [5, 4, 9, 2, 8, 7, 1, 6, 3, 10] (by decide)

/-- C9: the while loop terminates on every input, executing exactly n - 1
iterations for n ≥ 1 and none for n ≤ 1: fuel n - 1 always completes the
loop with its value, while for n ≥ 2 fuel n - 2 runs out. -/
theorem loop_runs_n_sub_one (n m : Nat) :
    factorialLoopFuel (n - 1) n m = some (factorialLoop n m) ∧
      (2 ≤ n → factorialLoopFuel (n - 2) n m = none) := by
  constructor
  · rcases n with _ | k
    · rfl
    · exact factorialLoopFuel_enough k m
  · intro hn
    rcases n with _ | _ | k
    · exact absurd hn (by decide)
    · exact absurd hn (by decide)
    · exact factorialLoopFuel_short k m

/-- Witness for C9 at n = 5, m = 1. -/
theorem loop_runs_n_sub_one_witness :
    factorialLoopFuel 4 5 1 = some (factorialLoop 5 1) ∧ factorialLoopFuel 3 5 1 = none :=
  have h := loop_runs_n_sub_one 5 1
  ⟨h.1, h.2 (by decide)⟩

/-- C10: each family member is deterministic and its returned value is
uninfluenced by the volatile tag read and the no-op padding: the value
component of the traced semantics is independent of the tag and of the
padding count, and equals `factorial N n`, so any two invocations on the
same n agree. -/
theorem factorial_deterministic (N1 N2 c1 c2 n : Nat) :
    (factorialTr N1 c1 n).1 = (factorialTr N2 c2 n).1 ∧
      (factorialTr N1 c1 n).1 = factorial N1 n := by
  have h1 := factorialLoopTr_fst c1 n 1
  have h2 := factorialLoopTr_fst c2 n 1
  exact ⟨h1.trans h2.symm, h1⟩

end SCDP
